import Mathlib

/-!
Verification development for the legal-form-fill repository.

The definitions below are shallow embeddings of the TypeScript frontend
sources (`frontend/src/types.ts`, `frontend/src/api.ts`,
`frontend/src/App.tsx`, `frontend/src/components/ProgressView.tsx`, and
the earlier revisions of `App.tsx` and `ProgressView.tsx`), together
with a model of the backend Automation Engine, which is described by the
specification but whose code is not among the sources.  TypeScript
`number` is embedded as `ℚ`; `T | null` as `Option T`.
-/

namespace LegalFormFill

/-- The status union of a progress message (`types.ts`, field `status`
of `FormFillProgress`: the string union of filling, done, error). -/
inductive FillStatus where
  | filling
  | done
  | error
deriving DecidableEq, Repr

/-- `FormFillProgress` (`types.ts` lines 66 to 71): one progress message
received over the progress WebSocket. -/
structure FormFillProgress where
  field : String
  status : FillStatus
  message : String
  progress : ℚ
deriving DecidableEq, Repr

/-- The property names declared by the `FormFillProgress` interface, in
declaration order (`types.ts` lines 66 to 71). -/
def formFillProgressKeys : List String :=
  ["field", "status", "message", "progress"]

/-- `FormFillResult` (`types.ts` lines 73 to 79): the final report of a
fill run.  `filled_fields` and `total_fields` are declared `number` in
the source, hence embedded as `ℚ`. -/
structure FormFillResult where
  success : Bool
  screenshot_id : Option String
  filled_fields : ℚ
  total_fields : ℚ
  errors : List String
deriving DecidableEq, Repr

/-- The property names declared by the `FormFillResult` interface, in
declaration order (`types.ts` lines 73 to 79). -/
def formFillResultKeys : List String :=
  ["success", "screenshot_id", "filled_fields", "total_fields", "errors"]

/-- `BASE` (`api.ts` line 9). -/
def BASE : String := ""

/-- Model of a client WebSocket as produced by `connectProgress`: the
URL it was opened on, the installed `onmessage` handler, and the
messages the client has sent over it. -/
structure WSConn (α : Type) where
  url : String
  onmessage : String → α
  sent : List String

/-- `connectProgress` (`api.ts` lines 46 to 53).  The ambient
`window.location.protocol` and `window.location.host` are the
`protocol` and `host` parameters, and `JSON.parse` is the `parseJSON`
parameter; the handler passes the parsed event data to `onMessage`.
The client installs only a receive handler and sends nothing. -/
def connectProgress {α : Type} (parseJSON : String → FormFillProgress)
    (onMessage : FormFillProgress → α) (protocol host : String) : WSConn α :=
  { url := (if protocol = "https:" then "wss:" else "ws:") ++ "//" ++ host
             ++ "/ws/progress"
    onmessage := fun e => onMessage (parseJSON e)
    sent := [] }

/-- `screenshotUrl` (`api.ts` lines 55 to 57). -/
def screenshotUrl (id : String) : String :=
  BASE ++ "/api/screenshots/" ++ id

/-- The progress shown by `ProgressView` (`ProgressView.tsx` line 11):
`items.length > 0 ? items[items.length - 1].progress : 0`. -/
def latestProgress (items : List FormFillProgress) : ℚ :=
  if h : 0 < items.length then
    (items.get ⟨items.length - 1, by omega⟩).progress
  else 0

/-- The screenshot request issued by the result block of `ProgressView`
(`ProgressView.tsx` lines 78 to 90): the `img` element src is emitted
when `result.screenshot_id` is truthy, and no request is made otherwise
(JavaScript truthiness on a nullable string: `null` and the empty string
are falsy). -/
def screenshotRequest (result : FormFillResult) : Option String :=
  match result.screenshot_id with
  | none => none
  | some sid => if sid = "" then none else some (screenshotUrl sid)

/-- One `map.set` call of the JavaScript `Map` built by the redesigned
`ProgressView`: a `Map` updates the value in place when the key is
already present and appends the key at the end otherwise, preserving
insertion order. -/
def mapSet (m : List (String × FormFillProgress)) (k : String)
    (v : FormFillProgress) : List (String × FormFillProgress) :=
  if m.any (fun p => p.1 = k) then
    m.map (fun p => if p.1 = k then (p.1, v) else p)
  else m ++ [(k, v)]

/-- The `Map` built by the loop of `fields` in the redesigned
`ProgressView` (earlier revision of `ProgressView.tsx`, lines 24 to
30): every event folded in under its `field` key. -/
def progressMap (items : List FormFillProgress) :
    List (String × FormFillProgress) :=
  items.foldl (fun m item => mapSet m item.field item) []

/-- `fields` from the redesigned `ProgressView` (earlier revision of
`ProgressView.tsx`, lines 24 to 30): fold every event into a `Map`
keyed by `item.field`, then take the values in insertion order. -/
def fields (items : List FormFillProgress) : List FormFillProgress :=
  (progressMap items).map Prod.snd

/-- The key order in which JavaScript `Map` insertion stores the fields:
each key at its first occurrence. -/
def firstOccurrences (l : List String) : List String :=
  l.foldl (fun acc f => if f ∈ acc then acc else acc ++ [f]) []

/-- A JavaScript thrown value as discriminated by `e instanceof Error`
in `App.tsx`. -/
inductive ThrownValue where
  | errorInstance (message : String)
  | other
deriving DecidableEq

/-- The result handling of `handleFill` in `App.tsx` (lines 135 to
160): the `fillForm` outcome determines the stored `fillResult`, and
the second component records that `ws.close()` ran in the `finally`
block on that path. -/
def handleFillApp (outcome : Except ThrownValue FormFillResult) :
    FormFillResult × Bool :=
  match outcome with
  | Except.ok result => (result, true)
  | Except.error e =>
      ({ success := false
         screenshot_id := none
         filled_fields := 0
         total_fields := 0
         errors := [match e with
                    | ThrownValue.errorInstance m => m
                    | ThrownValue.other => "Form fill failed"] }, true)

/-- The result handling of `handleFill` in the earlier revision of
`App.tsx` (lines 115 to 141 of that revision), embedded separately so
the two revisions can be compared. -/
def handleFillLegacy (outcome : Except ThrownValue FormFillResult) :
    FormFillResult × Bool :=
  match outcome with
  | Except.ok result => (result, true)
  | Except.error e =>
      ({ success := false
         screenshot_id := none
         filled_fields := 0
         total_fields := 0
         errors := [match e with
                    | ThrownValue.errorInstance m => m
                    | ThrownValue.other => "Form fill failed"] }, true)

/-- C1 counterexample: the progress-event type of the program
(`FormFillProgress`, `types.ts`) names its field attribute `field`, not
`field_id`, and its `progress` attribute is a plain number, not bounded
by the type to the range 0 to 100. -/
theorem C1_counterexample :
    "field_id" ∉ formFillProgressKeys ∧
    (100 : ℚ) <
      (FormFillProgress.mk "f" FillStatus.done "" 150).progress := by
  constructor
  · decide
  · norm_num

/-- C1 (amended): every value of the progress-event type carries exactly
the attributes `field`, `status`, `message`, `progress`; the status is
one of filling, done, error; and two values agreeing on those four
attributes are equal, so no further attribute exists. -/
theorem C1_progress_event_shape :
    formFillProgressKeys = ["field", "status", "message", "progress"] ∧
    (∀ s : FillStatus,
      s = FillStatus.filling ∨ s = FillStatus.done ∨ s = FillStatus.error) ∧
    ∀ a b : FormFillProgress, a.field = b.field → a.status = b.status →
      a.message = b.message → a.progress = b.progress → a = b := by
  refine ⟨rfl, fun s => ?_, fun a b hf hs hm hp => ?_⟩
  · cases s
    · exact Or.inl rfl
    · exact Or.inr (Or.inl rfl)
    · exact Or.inr (Or.inr rfl)
  · cases a
    cases b
    simp_all

/-- C1 witness: the extensionality part of the amended claim applied to
a concrete progress event. -/
theorem C1_progress_event_shape_witness :
    FormFillProgress.mk "attorney.family_name" FillStatus.done "ok" 50 =
      FormFillProgress.mk "attorney.family_name" FillStatus.done "ok" 50 :=
  C1_progress_event_shape.2.2 _ _ rfl rfl rfl rfl

/-- C2 counterexample: the fill-result type declares `filled_fields`
(and `total_fields`) as plain numbers, so it admits non-integer
values — the claimed `int` typing is not enforced by the type. -/
theorem C2_counterexample :
    ((FormFillResult.mk false none (3 / 2) 2 []).filled_fields).den ≠ 1 := by
  show ((3 / 2 : ℚ)).den ≠ 1
  norm_num

/-- C2 (amended): every value of the fill-result type carries exactly
the attributes `success`, `screenshot_id`, `filled_fields`,
`total_fields`, `errors` — with `success` a boolean, `screenshot_id` a
string or null, `filled_fields` and `total_fields` numbers (the type
itself does not confine them to integers), and `errors` a list of
strings — and two values agreeing on those five attributes are equal,
so no further attribute exists. -/
theorem C2_completion_report_shape :
    formFillResultKeys =
      ["success", "screenshot_id", "filled_fields", "total_fields",
       "errors"] ∧
    ∀ a b : FormFillResult, a.success = b.success →
      a.screenshot_id = b.screenshot_id →
      a.filled_fields = b.filled_fields →
      a.total_fields = b.total_fields → a.errors = b.errors → a = b := by
  refine ⟨rfl, fun a b h1 h2 h3 h4 h5 => ?_⟩
  cases a
  cases b
  simp_all

/-- C2 witness: the extensionality part applied to a concrete report. -/
theorem C2_completion_report_shape_witness :
    FormFillResult.mk true (some "shot") 3 3 [] =
      FormFillResult.mk true (some "shot") 3 3 [] :=
  C2_completion_report_shape.2 _ _ rfl rfl rfl rfl rfl

/-- C5: `handleFill` stores exactly one terminal report: the resolved
report unchanged when `fillForm` resolves, and the fixed failure report
carrying the thrown message (or the fallback text for a non-Error
value) when it rejects; the WebSocket is closed on every path. -/
theorem C5_handle_fill_terminal_report
    (outcome : Except ThrownValue FormFillResult) :
    (∀ r, outcome = Except.ok r → handleFillApp outcome = (r, true)) ∧
    (∀ m, outcome = Except.error (ThrownValue.errorInstance m) →
      handleFillApp outcome = (FormFillResult.mk false none 0 0 [m], true)) ∧
    (outcome = Except.error ThrownValue.other →
      handleFillApp outcome =
        (FormFillResult.mk false none 0 0 ["Form fill failed"], true)) := by
  refine ⟨fun r h => ?_, fun m h => ?_, fun h => ?_⟩ <;> subst h <;> rfl

/-- C5 witness: a rejected run with a concrete Error message stores the
fixed failure report. -/
theorem C5_handle_fill_terminal_report_witness :
    handleFillApp (Except.error (ThrownValue.errorInstance "network down")) =
      (FormFillResult.mk false none 0 0 ["network down"], true) :=
  (C5_handle_fill_terminal_report _).2.1 "network down" rfl

/-- C6: `connectProgress` opens the socket on `/ws/progress` at the
current host, with scheme `wss:` exactly when the page protocol is
`https:` and `ws:` otherwise; every incoming message is passed to the
callback after JSON parsing; and the client sends nothing over the
channel. -/
theorem C6_connect_progress {α : Type}
    (parseJSON : String → FormFillProgress) (onMessage : FormFillProgress → α)
    (protocol host : String) :
    ((protocol = "https:" →
       (connectProgress parseJSON onMessage protocol host).url =
         "wss://" ++ host ++ "/ws/progress") ∧
     (protocol ≠ "https:" →
       (connectProgress parseJSON onMessage protocol host).url =
         "ws://" ++ host ++ "/ws/progress")) ∧
    (∀ data,
      (connectProgress parseJSON onMessage protocol host).onmessage data =
        onMessage (parseJSON data)) ∧
    (connectProgress parseJSON onMessage protocol host).sent = [] := by
  have hurl : (connectProgress parseJSON onMessage protocol host).url =
      (if protocol = "https:" then "wss:" else "ws:") ++ "//" ++ host
        ++ "/ws/progress" := rfl
  refine ⟨⟨fun h => ?_, fun h => ?_⟩, fun data => rfl, rfl⟩
  · rw [hurl, if_pos h]
    exact rfl
  · rw [hurl, if_neg h]
    exact rfl

/-- C6 witness: on an https page at a concrete host the socket URL uses
the `wss:` scheme. -/
theorem C6_connect_progress_witness :
    (connectProgress (fun _ => FormFillProgress.mk "" FillStatus.filling "" 0)
        (fun m => m) "https:" "app.example").url =
      "wss://" ++ "app.example" ++ "/ws/progress" :=
  (C6_connect_progress _ _ _ _).1.1 rfl

/-- C7: `screenshotUrl` is exactly the screenshots path followed by the
id, and the result view issues a screenshot request only when the
report carries a non-null `screenshot_id`. -/
theorem C7_screenshot_url (id : String) (result : FormFillResult) :
    screenshotUrl id = "/api/screenshots/" ++ id ∧
    (result.screenshot_id = none → screenshotRequest result = none) ∧
    (∀ u, screenshotRequest result = some u →
      result.screenshot_id ≠ none) := by
  refine ⟨rfl, fun h => ?_, fun u hu hnone => ?_⟩
  · simp [screenshotRequest, h]
  · simp [screenshotRequest, hnone] at hu

/-- C7 witness: a report with a null screenshot id issues no image
request. -/
theorem C7_screenshot_url_witness :
    screenshotRequest (FormFillResult.mk true none 0 0 []) = none :=
  (C7_screenshot_url "x" (FormFillResult.mk true none 0 0 [])).2.1 rfl

/-- C8: the displayed progress is a total function of the event list:
0 for the empty list and the progress of the last event otherwise. -/
theorem C8_latest_progress (items : List FormFillProgress)
    (e : FormFillProgress) :
    latestProgress [] = 0 ∧
    (items.getLast? = some e → latestProgress items = e.progress) := by
  refine ⟨rfl, fun h => ?_⟩
  have hne : items ≠ [] := by
    rintro rfl
    simp at h
  have hlen : 0 < items.length := List.length_pos.mpr hne
  have hg : items.getLast hne = items.get ⟨items.length - 1, by omega⟩ := by
    rw [List.getLast_eq_getElem]
    simp
  rw [List.getLast?_eq_getLast_of_ne_nil hne] at h
  simp only [latestProgress, dif_pos hlen]
  rw [← hg, Option.some_inj.mp h]

/-- C8 witness: on a concrete one-event list the displayed progress is
that event's progress. -/
theorem C8_latest_progress_witness :
    latestProgress [FormFillProgress.mk "f" FillStatus.done "" 40] = 40 :=
  (C8_latest_progress [FormFillProgress.mk "f" FillStatus.done "" 40]
      (FormFillProgress.mk "f" FillStatus.done "" 40)).2 rfl

/-- C10: the two revisions of `handleFill` are equivalent in result
handling: for the same `fillForm` outcome both store the identical
`fillResult`, and both close the WebSocket afterwards. -/
theorem C10_handle_fill_revisions_equivalent
    (outcome : Except ThrownValue FormFillResult) :
    handleFillLegacy outcome = handleFillApp outcome ∧
    (handleFillLegacy outcome).2 = true ∧
    (handleFillApp outcome).2 = true := by
  cases outcome <;> exact ⟨rfl, rfl, rfl⟩

/-- Control kinds of a FieldMapEntry (spec section 3). -/
inductive ControlKind where
  | text
  | select
  | checkbox
  | radio
deriving DecidableEq, Repr

/-- Modelled from the spec: the backend Value Resolver and Automation
Engine are not among the sources.  `FillStep` follows section 3
(`field_id`, `control_kind`, `locator`, `value`), extended with the
`required` flag of the originating FieldMapEntry, which section 4.3
step 5 has the Engine consult when assembling the report. -/
structure FillStep where
  field_id : String
  control_kind : ControlKind
  locator : String
  value : String
  required : Bool
deriving DecidableEq, Repr

/-- Modelled from the spec: `ProgressEvent` of section 3 on the Engine
side — `field_id`, `status`, `message`, `progress_percent`. -/
structure ProgressEvent where
  field_id : String
  status : FillStatus
  message : String
  progress : ℚ
deriving DecidableEq, Repr

/-- Modelled from the spec: the outcome of one locate-and-interact
attempt through the Browser Driver Adapter once the per-step retry
policy of section 4.3 is exhausted — success, or a failure condition
text (section 4.2). -/
inductive StepOutcome where
  | success
  | failure (condition : String)
deriving DecidableEq, Repr

/-- The state the Running phase accumulates over the plan: the emitted
events, the count of fields that reached done, the error list, and
whether every required step so far reached done. -/
structure RunState where
  events : List ProgressEvent
  filled : ℕ
  errors : List String
  requiredOk : Bool
deriving DecidableEq, Repr

/-- Modelled from the spec: the Running state of the Automation Engine
(section 4.3) on step `i` of `total`: emit `filling` at progress
`i/total*100`; attempt the step through the driver; on success emit
`done` at `(i+1)/total*100` and count the field as filled; on exhausted
retries emit `error` at the same progress, record the message, and
continue with the next step. -/
def runSteps (driver : FillStep → StepOutcome) (total : ℕ) :
    ℕ → List FillStep → RunState
  | _, [] => ⟨[], 0, [], true⟩
  | i, s :: rest =>
    let next := runSteps driver total (i + 1) rest
    let enter : ProgressEvent :=
      ⟨s.field_id, FillStatus.filling, "", (i * 100 : ℚ) / total⟩
    match driver s with
    | StepOutcome.success =>
        ⟨enter :: ⟨s.field_id, FillStatus.done, "",
            ((i + 1) * 100 : ℚ) / total⟩ :: next.events,
         next.filled + 1, next.errors, next.requiredOk⟩
    | StepOutcome.failure cond =>
        ⟨enter :: ⟨s.field_id, FillStatus.error, s.field_id ++ ": " ++ cond,
            ((i + 1) * 100 : ℚ) / total⟩ :: next.events,
         next.filled, (s.field_id ++ ": " ++ cond) :: next.errors,
         next.requiredOk && !s.required⟩

/-- Modelled from the spec: a full Engine run over an already-resolved
plan (section 4.3): Running over the plan in order, Finalizing stores
the best-effort screenshot under `shot` (possibly `none`), Completed
assembles the report — `success` iff every required step reached done,
`filled_fields` the done count, `total_fields` the plan length,
`errors` in emission order. -/
def runEngine (driver : FillStep → StepOutcome) (shot : Option String)
    (plan : List FillStep) : List ProgressEvent × FormFillResult :=
  let st := runSteps driver plan.length 0 plan
  (st.events,
   ⟨st.requiredOk, shot, (st.filled : ℚ), (plan.length : ℚ), st.errors⟩)

/-- The `requiredOk` flag of the Running fold is true exactly when every
required step of the remaining plan succeeds under the driver. -/
theorem runSteps_requiredOk (driver : FillStep → StepOutcome) (total : ℕ)
    (plan : List FillStep) : ∀ i : ℕ,
    ((runSteps driver total i plan).requiredOk = true ↔
      ∀ s ∈ plan, s.required = true → driver s = StepOutcome.success) := by
  induction plan with
  | nil =>
    intro i
    simp [runSteps]
  | cons s rest ih =>
    intro i
    rcases h : driver s with _ | cond
    · simp [runSteps, h, ih]
    · simp [runSteps, h, ih (i + 1)]
      exact and_comm

/-- The error list of the Running fold is empty exactly when every step
of the remaining plan succeeds under the driver. -/
theorem runSteps_errors_nil (driver : FillStep → StepOutcome) (total : ℕ)
    (plan : List FillStep) : ∀ i : ℕ,
    ((runSteps driver total i plan).errors = [] ↔
      ∀ s ∈ plan, driver s = StepOutcome.success) := by
  induction plan with
  | nil =>
    intro i
    simp [runSteps]
  | cons s rest ih =>
    intro i
    rcases h : driver s with _ | cond
    · simp [runSteps, h, ih (i + 1)]
    · simp [runSteps, h]

/-- C3: the report success flag is true iff every required step reached
done; when every required step succeeds but some step fails, the
failures are confined to optional fields and success stays true while
the error list is non-empty. -/
theorem C3_success_iff_required_done (driver : FillStep → StepOutcome)
    (shot : Option String) (plan : List FillStep) :
    ((runEngine driver shot plan).2.success = true ↔
      ∀ s ∈ plan, s.required = true → driver s = StepOutcome.success) ∧
    ((∀ s ∈ plan, s.required = true → driver s = StepOutcome.success) →
      (∃ s ∈ plan, driver s ≠ StepOutcome.success) →
      (runEngine driver shot plan).2.success = true ∧
      (runEngine driver shot plan).2.errors ≠ []) := by
  have h1 := runSteps_requiredOk driver plan.length plan 0
  have h2 := runSteps_errors_nil driver plan.length plan 0
  refine ⟨h1, fun hreq hex => ⟨h1.mpr hreq, fun hnil => ?_⟩⟩
  obtain ⟨s, hs, hfail⟩ := hex
  exact hfail (h2.mp hnil s hs)

/-- C3 witness: a concrete two-step plan — a required step that
succeeds and an optional step whose locator fails — yields a report
with success true and a non-empty error list. -/
theorem C3_success_iff_required_done_witness :
    (runEngine
        (fun s => if s.required then StepOutcome.success
                  else StepOutcome.failure "locator timeout")
        (some "shot-1")
        [FillStep.mk "attorney.family_name" ControlKind.text "#fam" "Doe" true,
         FillStep.mk "attorney.email" ControlKind.text "#email" "" false]).2.success
        = true ∧
    (runEngine
        (fun s => if s.required then StepOutcome.success
                  else StepOutcome.failure "locator timeout")
        (some "shot-1")
        [FillStep.mk "attorney.family_name" ControlKind.text "#fam" "Doe" true,
         FillStep.mk "attorney.email" ControlKind.text "#email" "" false]).2.errors
        ≠ [] :=
  (C3_success_iff_required_done _ _ _).2 (by decide)
    ⟨FillStep.mk "attorney.email" ControlKind.text "#email" "" false,
     by decide, by decide⟩

/-- C4 counterexample: on a concrete plan of 3 required steps where
every locate-and-interact succeeds, the rounded progress values of the
6 emitted events are not 33, 33, 67, 67, 100, 100 — the per-step
formula of section 4.3 gives the filling event of step `i` progress
`i/total*100`, so the run starts at 0. -/
theorem C4_counterexample :
    (runEngine (fun _ => StepOutcome.success) (some "shot-1")
        [FillStep.mk "rep.family_name" ControlKind.text "#family" "Doe" true,
         FillStep.mk "rep.given_name" ControlKind.text "#given" "Jane" true,
         FillStep.mk "subject.surname" ControlKind.text "#surname" "Smith"
           true]).1.map (fun e => round e.progress) ≠
      [33, 33, 67, 67, 100, 100] := by
  norm_num [runEngine, runSteps, round_eq]

/-- C4 (amended): for every run over a plan of exactly 3 required steps
in which every locate-and-interact succeeds, the engine emits exactly 6
progress events — one filling/done pair per step in plan order — whose
rounded progress values are 0, 33, 33, 67, 67, 100, and the report has
success true, filled_fields 3, total_fields 3 and an empty error
list. -/
theorem C4_three_required_steps (driver : FillStep → StepOutcome)
    (shot : Option String) (a b c : FillStep)
    (hareq : a.required = true) (hbreq : b.required = true)
    (hcreq : c.required = true)
    (ha : driver a = StepOutcome.success)
    (hb : driver b = StepOutcome.success)
    (hc : driver c = StepOutcome.success) :
    (runEngine driver shot [a, b, c]).1.map
        (fun e => (e.field_id, e.status)) =
      [(a.field_id, FillStatus.filling), (a.field_id, FillStatus.done),
       (b.field_id, FillStatus.filling), (b.field_id, FillStatus.done),
       (c.field_id, FillStatus.filling), (c.field_id, FillStatus.done)] ∧
    (runEngine driver shot [a, b, c]).1.map (fun e => round e.progress) =
      [0, 33, 33, 67, 67, 100] ∧
    (runEngine driver shot [a, b, c]).2.success = true ∧
    (runEngine driver shot [a, b, c]).2.filled_fields = 3 ∧
    (runEngine driver shot [a, b, c]).2.total_fields = 3 ∧
    (runEngine driver shot [a, b, c]).2.errors = [] := by
  refine ⟨?_, ?_, ?_, ?_, ?_, ?_⟩ <;>
    norm_num [runEngine, runSteps, ha, hb, hc, round_eq]

/-- C4 witness: the amended claim applied to the example plan of the
spec with an always-succeeding driver. -/
theorem C4_three_required_steps_witness :
    (runEngine (fun _ => StepOutcome.success) (some "shot-1")
        [FillStep.mk "rep.family_name" ControlKind.text "#family" "Doe" true,
         FillStep.mk "rep.given_name" ControlKind.text "#given" "Jane" true,
         FillStep.mk "subject.surname" ControlKind.text "#surname" "Smith"
           true]).1.map (fun e => round e.progress) =
      [0, 33, 33, 67, 67, 100] :=
  (C4_three_required_steps _ _ _ _ _ rfl rfl rfl rfl rfl rfl).2.1

/-- The truthiness of the `Map` membership test used by `mapSet`. -/
theorem any_key (m : List (String × FormFillProgress)) (k : String) :
    (m.any fun p => p.1 = k) = true ↔ k ∈ m.map Prod.fst := by
  simp [List.any_eq_true, List.mem_map]

/-- The key list of a `Map` after `set`: unchanged when the key was
present, the key appended otherwise. -/
theorem keys_mapSet (m : List (String × FormFillProgress)) (k : String)
    (v : FormFillProgress) :
    (mapSet m k v).map Prod.fst =
      if k ∈ m.map Prod.fst then m.map Prod.fst
      else m.map Prod.fst ++ [k] := by
  unfold mapSet
  by_cases h : k ∈ m.map Prod.fst
  · rw [if_pos ((any_key m k).mpr h), if_pos h, List.map_map]
    apply List.map_eq_map_iff.mpr
    intro p hp
    by_cases hpk : p.1 = k <;> simp [hpk]
  · rw [if_neg (fun hc => h ((any_key m k).mp hc)), if_neg h]
    simp

/-- Every entry of a `Map` after `set` is either an untouched entry
under a different key, or carries the set key and value. -/
theorem mem_mapSet {m : List (String × FormFillProgress)} {k : String}
    {v : FormFillProgress} {p : String × FormFillProgress}
    (hp : p ∈ mapSet m k v) :
    (p ∈ m ∧ p.1 ≠ k) ∨ (p.1 = k ∧ p.2 = v) := by
  unfold mapSet at hp
  by_cases h : (m.any fun q => q.1 = k) = true
  · rw [if_pos h] at hp
    obtain ⟨q, hq, hqe⟩ := List.mem_map.mp hp
    by_cases hqk : q.1 = k
    · right
      rw [if_pos hqk] at hqe
      rw [← hqe]
      exact ⟨hqk, rfl⟩
    · left
      rw [if_neg hqk] at hqe
      rw [← hqe]
      exact ⟨hq, hqk⟩
  · rw [if_neg h] at hp
    rcases List.mem_append.mp hp with hm | hs
    · left
      refine ⟨hm, fun hpk => h (List.any_eq_true.mpr ⟨p, hm, by simp [hpk]⟩)⟩
    · right
      have hpkv : p = (k, v) := by simpa using hs
      rw [hpkv]
      exact ⟨rfl, rfl⟩

/-- Folding one more event into the `Map` is one `set` call. -/
theorem progressMap_concat (l : List FormFillProgress)
    (x : FormFillProgress) :
    progressMap (l ++ [x]) = mapSet (progressMap l) x.field x := by
  simp [progressMap, List.foldl_concat]

/-- Unfolding `firstOccurrences` over one more element at the end. -/
theorem firstOccurrences_concat (l : List String) (f : String) :
    firstOccurrences (l ++ [f]) =
      if f ∈ firstOccurrences l then firstOccurrences l
      else firstOccurrences l ++ [f] := by
  simp [firstOccurrences, List.foldl_concat]

/-- The first-occurrence key order has no duplicates. -/
theorem firstOccurrences_nodup (l : List String) :
    (firstOccurrences l).Nodup := by
  induction l using List.reverseRecOn with
  | nil => simp [firstOccurrences]
  | append_singleton l x ih =>
    rw [firstOccurrences_concat]
    by_cases h : x ∈ firstOccurrences l
    · rw [if_pos h]
      exact ih
    · rw [if_neg h]
      simp [List.nodup_append, ih, h]

/-- Every stored value sits under its own `field` as key. -/
theorem progressMap_snd_field (items : List FormFillProgress) :
    ∀ p ∈ progressMap items, p.2.field = p.1 := by
  induction items using List.reverseRecOn with
  | nil => simp [progressMap]
  | append_singleton l x ih =>
    intro p hp
    rw [progressMap_concat] at hp
    rcases mem_mapSet hp with ⟨hpm, _⟩ | ⟨h1, h2⟩
    · exact ih p hpm
    · rw [h2, h1]

/-- The key order of the `Map` is the first-occurrence order of the
event fields. -/
theorem progressMap_keys (items : List FormFillProgress) :
    (progressMap items).map Prod.fst =
      firstOccurrences (items.map fun e => e.field) := by
  induction items using List.reverseRecOn with
  | nil => simp [progressMap, firstOccurrences]
  | append_singleton l x ih =>
    rw [progressMap_concat, keys_mapSet, ih, List.map_append]
    simp only [List.map_cons, List.map_nil]
    rw [firstOccurrences_concat]

/-- Every stored entry is the last event of the list carrying its
key as field. -/
theorem progressMap_lastEvent (items : List FormFillProgress) :
    ∀ p ∈ progressMap items,
      (items.filter fun it => it.field = p.1).getLast? = some p.2 := by
  induction items using List.reverseRecOn with
  | nil => simp [progressMap]
  | append_singleton l x ih =>
    intro p hp
    rw [progressMap_concat] at hp
    rw [List.filter_append]
    rcases mem_mapSet hp with ⟨hpm, hpk⟩ | ⟨h1, h2⟩
    · have hxf : ¬ (x.field = p.1) := fun hc => hpk hc.symm
      have hx : ([x].filter fun it => it.field = p.1) = [] := by
        simp [hxf]
      rw [hx, List.append_nil]
      exact ih p hpm
    · have hx : ([x].filter fun it => it.field = p.1) = [x] := by
        simp [h1]
      rw [hx, h2]
      exact List.getLast?_concat _

/-- C9: the per-field log of the redesigned `ProgressView` holds at
most one entry per distinct field — the most recent event for that
field — and entries are ordered by each field's first occurrence in
the event list. -/
theorem C9_fields_dedup (items : List FormFillProgress) :
    ((fields items).map fun e => e.field).Nodup ∧
    (∀ e ∈ fields items,
      (items.filter fun it => it.field = e.field).getLast? = some e) ∧
    ((fields items).map fun e => e.field) =
      firstOccurrences (items.map fun e => e.field) := by
  have hmapfield : ((fields items).map fun e => e.field) =
      (progressMap items).map Prod.fst := by
    rw [fields, List.map_map]
    exact List.map_eq_map_iff.mpr fun p hp => progressMap_snd_field items p hp
  refine ⟨?_, ?_, ?_⟩
  · rw [hmapfield, progressMap_keys]
    exact firstOccurrences_nodup _
  · intro e he
    rw [fields] at he
    obtain ⟨p, hp, hpe⟩ := List.mem_map.mp he
    have hf := progressMap_snd_field items p hp
    subst hpe
    rw [hf]
    exact progressMap_lastEvent items p hp
  · rw [hmapfield]
    exact progressMap_keys items

/-- C9 witness: on a concrete event list with a repeated field, the
log entry for that field is its most recent event. -/
theorem C9_fields_dedup_witness :
    ([FormFillProgress.mk "a" FillStatus.filling "start" 0,
      FormFillProgress.mk "a" FillStatus.done "ok" 50,
      FormFillProgress.mk "b" FillStatus.filling "start" 50].filter
        fun it => it.field =
          (FormFillProgress.mk "a" FillStatus.done "ok" 50).field).getLast? =
      some (FormFillProgress.mk "a" FillStatus.done "ok" 50) :=
  (C9_fields_dedup
      [FormFillProgress.mk "a" FillStatus.filling "start" 0,
       FormFillProgress.mk "a" FillStatus.done "ok" 50,
       FormFillProgress.mk "b" FillStatus.filling "start" 50]).2.1
    (FormFillProgress.mk "a" FillStatus.done "ok" 50) (by decide)

end LegalFormFill
